import Mathlib

/-!
Verification of the invoice-reconciliation core of the iiko-bufet repository.

The development shallowly embeds the pure computational core of
`bot/services/iiko_client.py`, `bot/services/pdf_parser.py` and
`bot/services/product_mappings.py`.  Python strings are modelled as `List Char`
(`Str`), Python `Decimal` values as `ℚ`, Python dicts as ordered association
lists, and Python sets of ids as duplicate-free insertion lists.  The
`rapidfuzz` similarity metrics are external library calls; they are modelled as
an abstract parameter (`Fuzz`) so every theorem quantifies over all possible
metric functions.  Network and file I/O boundaries (the catalog fetch, the
mapping-store JSON file, the invoice upload) are replaced by explicit
parameters holding the data those calls would return.
-/

/-- Python strings are modelled as lists of unicode characters. -/
abbrev Str := List Char

/-- Embed a Lean string literal into the model. -/
def str (s : String) : Str := s.toList

/-- The whitespace characters recognised by `str.strip()` / `\s` (ASCII range;
the source data never contains the rarer unicode whitespace code points). -/
def isSpace (c : Char) : Bool := c.toNat ∈ [9, 10, 11, 12, 13, 32]

/-- `str.lower()` restricted to the alphabets that occur in the repository:
ASCII `A`-`Z` and Cyrillic `А`-`Я`, `Ё`. -/
def lowerChar (c : Char) : Char :=
  if 65 ≤ c.toNat ∧ c.toNat ≤ 90 then Char.ofNat (c.toNat + 32)
  else if 1040 ≤ c.toNat ∧ c.toNat ≤ 1071 then Char.ofNat (c.toNat + 32)
  else if c.toNat = 1025 then Char.ofNat 1105
  else c

/-- `s.lower()`. -/
def lowerStr (s : Str) : Str := s.map lowerChar

/-- `s.strip()`. -/
def stripStr (s : Str) : Str :=
  ((s.dropWhile isSpace).reverse.dropWhile isSpace).reverse

/-- `hay.startswith(needle)` (first argument is the needle). -/
def startsW : Str → Str → Bool
  | [], _ => true
  | _ :: _, [] => false
  | a :: as, b :: bs => a == b && startsW as bs

/-- `hay.endswith(needle)` (first argument is the needle). -/
def endsW (needle hay : Str) : Bool := startsW needle.reverse hay.reverse

/-- Python substring containment `needle in hay`. -/
def containsStr (needle : Str) : Str → Bool
  | [] => startsW needle []
  | c :: rest => startsW needle (c :: rest) || containsStr needle rest

/-- Split on maximal runs of characters satisfying `p`, dropping empty
fragments.  Models both `str.split()` and `re.split(r"[...]+", s)`: the latter
can also return empty boundary fragments, but every caller in the source
filters the fragments by a minimum length, so the empty fragments never
matter. -/
def splitPAux (p : Char → Bool) : Str → Str → List Str
  | [], acc => if acc = [] then [] else [acc.reverse]
  | c :: rest, acc =>
    if p c then
      (if acc = [] then splitPAux p rest [] else acc.reverse :: splitPAux p rest [])
    else splitPAux p rest (c :: acc)

/-- Split a string by a character predicate, dropping empty fragments. -/
def splitP (p : Char → Bool) (s : Str) : List Str := splitPAux p s []

/-- `" ".join(parts)`. -/
def joinSpace (parts : List Str) : Str := List.intercalate [' '] parts

/-- `s.replace(" ", "")` (removes the plain space character only). -/
def removeSp (s : Str) : Str := s.filter (fun c => c != ' ')

/-- `s.isdigit()` for ASCII digits: non-empty and all digits. -/
def isDigits (s : Str) : Bool := !s.isEmpty && s.all Char.isDigit

/-- Numeric value of a digit string. -/
def digitsToNat (ds : Str) : Nat := ds.foldl (fun a c => a * 10 + (c.toNat - 48)) 0

/-- Python `int(s)` on an already-stripped string: optional sign then digits. -/
def parseInt (s : Str) : Option Int :=
  match s with
  | '-' :: rest => if rest ≠ [] ∧ rest.all Char.isDigit then some (-(digitsToNat rest : Int)) else none
  | '+' :: rest => if rest ≠ [] ∧ rest.all Char.isDigit then some ((digitsToNat rest : Int)) else none
  | _ => if s ≠ [] ∧ s.all Char.isDigit then some ((digitsToNat s : Int)) else none

/-- Powers of ten as exact rationals. -/
def pow10 : Nat → ℚ
  | 0 => 1
  | n + 1 => 10 * pow10 n

/-- The numeric part of `Decimal(s)`: optional sign, digits with at most one
decimal point, optional exponent.  The `Decimal` special spellings
(`NaN`, `Infinity`) are rejected here; in the source a `NaN` quantity would
raise `InvalidOperation` at the first comparison, so in both models such a row
yields no line item. -/
def parseDec (s : Str) : Option ℚ :=
  let sgn : Bool × Str :=
    match s with
    | '-' :: t => (true, t)
    | '+' :: t => (false, t)
    | _ => (false, s)
  let d1 := sgn.2.takeWhile Char.isDigit
  let r1 := sgn.2.dropWhile Char.isDigit
  let frac : Str × Str :=
    match r1 with
    | '.' :: t => (t.takeWhile Char.isDigit, t.dropWhile Char.isDigit)
    | _ => ([], r1)
  if d1 = [] ∧ frac.1 = [] then none
  else
    let e? : Option Int :=
      match frac.2 with
      | [] => some 0
      | 'e' :: t => parseInt t
      | 'E' :: t => parseInt t
      | _ => none
    match e? with
    | none => none
    | some e =>
      let m : ℚ := (digitsToNat (d1 ++ frac.1) : ℚ)
      let k : Int := e - (frac.1.length : Int)
      let v : ℚ := if 0 ≤ k then m * pow10 k.toNat else m / pow10 (-k).toNat
      some (if sgn.1 then -v else v)

/-- Word characters of the regex `\w` (with `re.UNICODE`) over the alphabets in
use: ASCII alphanumerics, underscore, and Cyrillic letters. -/
def isWordChar (c : Char) : Bool :=
  c.isAlphanum || c == '_' ||
  (1040 ≤ c.toNat && c.toNat ≤ 1103) || c.toNat == 1025 || c.toNat == 1105

/-- A `\b` boundary holds before a word-character-delimited pattern when the
preceding character (if any) is not a word character. -/
def boundBefore : Option Char → Bool
  | none => true
  | some c => !isWordChar c

/-- A `\b` boundary holds after the pattern when the following text is empty or
starts with a non-word character. -/
def boundAfter : Str → Bool
  | [] => true
  | c :: _ => !isWordChar c

/-- `re.sub(rf"\b(tpo)\b", rep, s)` for a pattern consisting of word
characters: replace every boundary-delimited occurrence left to right,
continuing the scan after the end of each match in the original string.
`fuel` bounds the recursion by the length of the remaining text. -/
def replaceWordAux (tpo rep : Str) : Nat → Option Char → Str → Str
  | 0, _, s => s
  | Nat.succ fuel, prev, s =>
    match s with
    | [] => []
    | c :: rest =>
      if tpo ≠ [] ∧ boundBefore prev ∧ startsW tpo s ∧ boundAfter (s.drop tpo.length) then
        rep ++ replaceWordAux tpo rep fuel tpo.getLast? (s.drop tpo.length)
      else
        c :: replaceWordAux tpo rep fuel (some c) rest

/-- Word-boundary-aware whole-word replacement. -/
def replaceWord (tpo rep s : Str) : Str := replaceWordAux tpo rep s.length none s

namespace Iiko

/-- The four `rapidfuzz` similarity metrics used by the source
(`fuzz.ratio`, `fuzz.partial_ratio`, `fuzz.token_set_ratio`,
`fuzz.token_sort_ratio` in rapidfuzz's own naming).  They are an external
library; the development treats them as an abstract parameter so the theorems
hold for every possible metric. -/
structure Fuzz where
  full : Str → Str → Nat
  part : Str → Str → Nat
  tokenSet : Str → Str → Nat
  tokenSort : Str → Str → Nat

/-- A trivial concrete instantiation of the metrics, used to evaluate the model
on inputs whose control path never consults the metrics. -/
def fzZero : Fuzz := ⟨fun _ _ => 0, fun _ _ => 0, fun _ _ => 0, fun _ _ => 0⟩

/-- A product record as produced by `IikoClient._parse_products_xml`
(`{"id", "name", "productCode", "number", ...}`); `productCode` and `number`
are set to the same value by the parser but are kept separate because the
search code reads them through `p.get("productCode") or p.get("number")`. -/
structure Product where
  id : Str
  name : Str
  productCode : Str
  number : Str
deriving DecidableEq, Repr

/-- `p.get("productCode") or p.get("number") or ""`. -/
def codeEff (p : Product) : Str :=
  if p.productCode ≠ [] then p.productCode else p.number

/-- An entry of the internal `matches` list of `_search_in_products`:
`{"id", "name", "productCode", "_score"}`. -/
structure MatchRec where
  id : Str
  name : Str
  productCode : Str
  score : Nat
deriving DecidableEq, Repr

/-- A candidate dict as returned by `search_product`
(`{"id", "name", "productCode"}`).  The `score` field models the optional
`"_score"` key: every dict actually built by `search_product` lacks it, so the
constructor sites all use `none`. -/
structure Cand where
  id : Str
  name : Str
  productCode : Str
  score : Option Nat
deriving DecidableEq, Repr

/-- `IikoClient._SKIP_WORDS`. -/
def skipWordsQ : List Str :=
  [str "для", str "или", str "и", str "в", str "на", str "с",
   str "по", str "из", str "от", str "до", str "без"]

/-- `IikoClient._TYPO_MAP`, in dict insertion order. -/
def typoMap : List (Str × Str) :=
  [(str "авакадо", str "авокадо"),
   (str "нохот", str "нори"),
   (str "мачёный", str "маринованный")]

/-- `IikoClient._normalize_query`: lowercase, strip, then apply the typo
dictionary word-boundary-aware. -/
def normalizeQuery (query : Str) : Str :=
  typoMap.foldl (fun q tr => replaceWord tr.1 tr.2 q) (stripStr (lowerStr query))

/-- `IikoClient._tokenize_query`: split on whitespace, `/`, `-` and
parentheses, keep words of length ≥ 3 that are not stop words. -/
def tokenizeQuery (query : Str) : List Str :=
  ((splitP (fun c => isSpace c || c == '/' || c == '-' || c == '(' || c == ')')
      (lowerStr query)).filter
    (fun w => 3 ≤ w.length ∧ w ∉ skipWordsQ))

/-- `IikoClient._count_keyword_matches`: how many significant query words occur
in the product name (directly, or via their first 5 or 6 characters). -/
def countKeywordMatches (query nm : Str) : Nat :=
  let words := tokenizeQuery query
  if words = [] then 0
  else
    let nl := lowerStr nm
    words.countP (fun w =>
      containsStr w nl ||
      (decide (5 ≤ w.length) && containsStr (w.take 5) nl) ||
      (decide (6 ≤ w.length) && containsStr (w.take 6) nl))

/-- `IikoClient._query_any_word_in_name`. -/
def queryAnyWordInName (query nm : Str) : Bool :=
  let words := tokenizeQuery query
  if words = [] then true
  else
    let nl := lowerStr nm
    words.any (fun w => containsStr w nl || (decide (5 ≤ w.length) && containsStr (w.take 5) nl))

/-- `min(2, len(words)) if len(words) >= 2 else 1` of `_search_in_products`. -/
def minMatchesOf (query : Str) : Nat :=
  let words := tokenizeQuery query
  if 2 ≤ words.length then min 2 words.length else 1

/-- The raw composite similarity score of `_search_in_products`: the maximum
of the five metric applications (source lines 220-226). -/
def rawScore (fz : Fuzz) (q nameL codeL : Str) : Nat :=
  max (max (fz.full q nameL) (fz.full q codeL))
    (max (fz.part q nameL) (max (fz.tokenSet q nameL) (fz.tokenSort q nameL)))

/-- The score adjustment / pruning chain of `_search_in_products` (source
lines 227-232): a code-equal item is forced to 100, an exact or
boundary-anchored name match to at least 95, and otherwise a raw score ≤ 35
prunes the item (`none`). -/
def scoreGate (fz : Fuzz) (q nameL codeL : Str) : Option Nat :=
  if codeL ≠ [] ∧ q = codeL then some 100
  else if nameL = q ∨ startsW (q ++ [' ']) nameL ∨ endsW ([' '] ++ q) nameL then
    some (max (rawScore fz q nameL codeL) 95)
  else if rawScore fz q nameL codeL ≤ 35 then none
  else some (rawScore fz q nameL codeL)

/-- The per-product body of the `for p in products` loop of
`_search_in_products`: `none` models `continue`. -/
def searchStep (fz : Fuzz) (q : Str) (p : Product) : Option MatchRec :=
  match scoreGate fz q (lowerStr p.name) (lowerStr (codeEff p)) with
  | none => none
  | some score =>
    if ¬ queryAnyWordInName q p.name then none
    else if countKeywordMatches q p.name < minMatchesOf q then none
    else some ⟨p.id, p.name, codeEff p, score⟩

/-- The comparison key `(-x["_score"], len(x["name"]))` of the final sort of
`_search_in_products`, as a ≤-style boolean relation. -/
def matchLE (a b : MatchRec) : Bool :=
  if b.score < a.score then true
  else if a.score = b.score then decide (a.name.length ≤ b.name.length)
  else false

/-- `IikoClient._search_in_products`: score every product, sort by descending
score then ascending name length, truncate to `limit`, keep scores
≥ `minScore`. -/
def searchInProducts (fz : Fuzz) (products : List Product) (q : Str)
    (limit minScore : Nat) : List MatchRec :=
  let ms := products.filterMap (searchStep fz q)
  let sorted := ms.mergeSort matchLE
  (sorted.take limit).filter (fun m => decide (minScore ≤ m.score))

/-- Conversion of an internal match to a returned candidate
(`{"id": m["id"], "name": m["name"], "productCode": m["productCode"]}` —
the `_score` key is not copied). -/
def mkCand (m : MatchRec) : Cand := ⟨m.id, m.name, m.productCode, none⟩

/-- Conversion of a code-stage product hit to a returned candidate
(`{"id": p["id"], "name": p["name"], "productCode": ...}` — no score key). -/
def mkCandP (p : Product) : Cand := ⟨p.id, p.name, codeEff p, none⟩

/-- `max(words, key=len)`: the first word of maximal length. -/
def maxByLen (l : List Str) : Str :=
  l.foldl (fun acc w => if acc.length < w.length then w else acc) (l.headD [])

/-- The fuzzy stage of `search_product` together with its relaxation
fallbacks (source lines 292-308). -/
def fuzzyStage (fz : Fuzz) (products : List Product) (q : Str)
    (limit minScore : Nat) : List MatchRec :=
  let r0 := searchInProducts fz products q limit minScore
  let st1 : List MatchRec × List Str :=
    if r0 ≠ [] then (r0, [])
    else
      let ws1 := tokenizeQuery q
      let ws := if ws1 = [] then (splitP isSpace q).filter (fun w => 2 ≤ w.length) else ws1
      match ws with
      | [] => (r0, [])
      | w :: rest =>
        let short := if 2 ≤ (w :: rest).length then joinSpace ((w :: rest).take 2) else w
        if short ≠ q then (searchInProducts fz products short limit minScore, w :: rest)
        else (r0, w :: rest)
  let r2 :=
    if st1.1 = [] ∧ st1.2 ≠ [] then
      let longest := maxByLen st1.2
      if 4 ≤ longest.length then searchInProducts fz products longest limit minScore else st1.1
    else st1.1
  if r2 = [] ∧ containsStr (str "масло") q ∧ containsStr (str "фритюр") q then
    searchInProducts fz products (str "масло фритюра") limit minScore
  else r2

/-- `search_product` after the query has been normalized (source lines
268-309): numeric-code stages first, then the fuzzy stage. -/
def searchCore (fz : Fuzz) (products : List Product) (q : Str)
    (limit minScore : Nat) : List Cand :=
  let parts := splitP isSpace q
  let cm : List Product :=
    match parts.find? (fun p => isDigits (removeSp p) && decide (3 ≤ p.length)) with
    | some cp => products.filter (fun p => removeSp (codeEff p) = removeSp cp)
    | none => []
  if cm ≠ [] then (cm.take limit).map mkCandP
  else
    let qc := removeSp q
    if isDigits qc then
      let cm2 := products.filter (fun p => removeSp (codeEff p) = qc)
      if cm2 ≠ [] then (cm2.take limit).map mkCandP
      else
        let cp2 := products.filter (fun p => containsStr qc (removeSp (codeEff p)))
        if cp2 ≠ [] then (cp2.take limit).map mkCandP
        else (fuzzyStage fz products q limit minScore).map mkCand
    else (fuzzyStage fz products q limit minScore).map mkCand

/-- `IikoClient.search_product` for a configured client, with the catalog
already fetched (`products` stands for the `get_products()` result). -/
def searchProduct (fz : Fuzz) (products : List Product) (query : Str)
    (limit minScore : Nat) : List Cand :=
  let queryRaw := stripStr query
  if queryRaw = [] then []
  else searchCore fz products (normalizeQuery queryRaw) limit minScore

end Iiko

namespace Iiko

/-- The per-item data of the `all_items` dict built by
`_parse_products_xml`: `{"name", "parentId", "productType"}`. -/
structure CatItem where
  name : Str
  parentId : Str
  productType : Str
deriving DecidableEq, Repr

/-- The `all_items` dict (`id → CatItem`), as an insertion-ordered list. -/
abbrev Catalog := List (Str × CatItem)

/-- `IikoClient._PRODUCT_GROUP_TYPES`. -/
def productGroupTypes : List Str := [str "products", str "productgroup"]

/-- `IikoClient._EXCLUDED_GROUP_NAMES`. -/
def excludedGroupNames : List Str :=
  [str "yandex", str "yandex - корни", str "кухня", str "услуги",
   str "gonzo gaming - нетка", str "gonzo gaming-нетка", str "корни меню"]

/-- `IikoClient._is_excluded_group`. -/
def isExcludedGroup (nm : Str) : Bool :=
  let n := stripStr (lowerStr nm)
  n ∈ excludedGroupNames ||
  containsStr (str "yandex") n ||
  (containsStr (str "gonzo gaming") n && containsStr (str "нетка") n)

/-- The seeding condition of `_build_excluded_ids`: untyped or group-typed, and
an excluded name. -/
def seedCond (d : CatItem) : Bool :=
  (d.productType = [] || lowerStr d.productType ∈ productGroupTypes) &&
  isExcludedGroup d.name

/-- The seed set `excluded_group_ids` of `_build_excluded_ids`. -/
def seedIds (items : Catalog) : List Str :=
  (items.filter (fun it => seedCond it.2)).map (fun it => it.1)

/-- One `for iid, data in all_items.items()` scan of the closure loop of
`_build_excluded_ids`, together with the `added` counter.  Membership is
checked against the growing set, exactly as in the source. -/
def closeOnce (items : Catalog) (ex : List Str) (added : Nat) : List Str × Nat :=
  match items with
  | [] => (ex, added)
  | (iid, d) :: rest =>
    if iid ∈ ex then closeOnce rest ex added
    else if d.parentId ≠ [] ∧ d.parentId ∈ ex then closeOnce rest (ex ++ [iid]) (added + 1)
    else closeOnce rest ex added

/-- The `for _ in range(20)` fixed-point loop of `_build_excluded_ids`,
breaking as soon as a scan adds nothing. -/
def buildLoop (items : Catalog) : Nat → List Str → List Str
  | 0, ex => ex
  | Nat.succ fuel, ex =>
    let step := closeOnce items ex 0
    if step.2 = 0 then step.1 else buildLoop items fuel step.1

/-- `IikoClient._build_excluded_ids`. -/
def buildExcludedIds (items : Catalog) : List Str :=
  buildLoop items 20 (seedIds items)

/-- An item reaches the excluded seed set in `k` parent steps, starting from a
base set of ids (the parent chain uses the `parentId` entries of the
catalog). -/
inductive ReachL (items : Catalog) (base : List Str) : Nat → Str → Prop
  | base {v : Str} : v ∈ base → ReachL items base 0 v
  | step {v : Str} {d : CatItem} {k : Nat} :
      (v, d) ∈ items → d.parentId ≠ [] → ReachL items base k d.parentId →
      ReachL items base (k + 1) v

/-- A supplier entry `{"id", "name"}` as consumed by `match_supplier`. -/
structure Supplier where
  id : Str
  name : Str
deriving DecidableEq, Repr

/-- The composite supplier similarity score: the maximum of the four metrics
(`match_supplier` lines 505-510), on the lowered name. -/
def supScore (fz : Fuzz) (q nameL : Str) : Nat :=
  max (max (fz.full q nameL) (fz.part q nameL))
    (max (fz.tokenSet q nameL) (fz.tokenSort q nameL))

/-- The `for s in suppliers` loop of `match_supplier`, threading
`(best, best_score)`. -/
def matchLoop (fz : Fuzz) (q : Str) : List Supplier → Option Supplier × Nat → Option Supplier × Nat
  | [], st => st
  | s :: rest, st =>
    let nl := lowerStr s.name
    if nl = [] then matchLoop fz q rest st
    else
      let sc := supScore fz q nl
      if st.2 < sc then matchLoop fz q rest (some ⟨s.id, s.name⟩, sc)
      else matchLoop fz q rest st

/-- `IikoClient.match_supplier`.  The `pdf_supplier_name` argument is `str |
None` in the source; `None` and `""` behave identically (`not
pdf_supplier_name`), so both are modelled by `[]`. -/
def matchSupplier (fz : Fuzz) (pdfName : Str) (suppliers : List Supplier) : Option Supplier :=
  if pdfName = [] ∨ suppliers = [] then none
  else
    let q := stripStr (lowerStr pdfName)
    if q.length < 3 then none
    else (matchLoop fz q suppliers (none, 50)).1

/-- One line of the `items` argument of `create_supply`
(`{"productId", "amount", "sum"?, "price"?, "discountSum"?}`); optional dict
keys are modelled with `Option`, a missing or `None` `productId` with `[]`. -/
structure SupplyItem where
  productId : Str
  amount : ℚ
  price? : Option ℚ
  sum? : Option ℚ
  discount? : Option ℚ
deriving DecidableEq, Repr

/-- The error outcomes of `create_supply` that precede the network call:
`ValueError` for a missing store / counteragent configuration and the distinct
`ProductGroupError` subclass for a non-product (group) id in the items. -/
inductive SupplyError
  | configStore
  | configCounteragent
  | productGroup
deriving DecidableEq, Repr

/-- One `<item>` element of the built invoice document. -/
structure SupplyDocItem where
  num : Nat
  product : Str
  store : Str
  price : ℚ
  amount : ℚ
  total : ℚ
  discount : ℚ
deriving DecidableEq, Repr

/-- The `incomingInvoice` XML document assembled by `create_supply` (numeric
fields are kept as exact rationals; the source formats them as fixed-point
strings). -/
structure SupplyDoc where
  documentNumber : Str
  dateIncoming : Str
  useDefaultDocumentTime : Bool
  defaultStore : Str
  supplier : Str
  comment : Option Str
  items : List SupplyDocItem
deriving DecidableEq, Repr

/-- Price and total of one supply line (source lines 590-592):
`price = it.price or (it.sum / amount if amount else 0)` and
`total = it.sum or amount * price`. -/
def supplyLine (storeId : Str) (idx : Nat) (it : SupplyItem) : SupplyDocItem :=
  let price : ℚ :=
    match it.price? with
    | some pv => if pv ≠ 0 then pv else (if it.amount ≠ 0 then (it.sum?.getD 0) / it.amount else 0)
    | none => if it.amount ≠ 0 then (it.sum?.getD 0) / it.amount else 0
  let total : ℚ :=
    match it.sum? with
    | some sv => if sv ≠ 0 then sv else it.amount * price
    | none => it.amount * price
  ⟨idx, it.productId, storeId, price, it.amount, total, it.discount?.getD 0⟩

/-- The store / counteragent resolution of `create_supply` (source lines
536-557): the call argument, else the `.env` default, else the first entry of
the fetched list, else a configuration `ValueError`. -/
def resolveId (arg cfg : Str) (pool : List Supplier) (e : SupplyError) :
    Except SupplyError Str :=
  let id0 := if arg ≠ [] then arg else cfg
  if id0 ≠ [] then .ok id0
  else match pool with
    | s :: _ => .ok s.id
    | [] => .error e

/-- `IikoClient.create_supply` up to (and including) the construction of the
document that would be posted to the server: store / counteragent resolution,
then the product-group validation, then the document build.  `validProducts`
stands for the `get_products()` result (the filtered catalog), `stores` and
`suppliers` for the respective lookups used when no default is configured,
`argStore`/`cfgStore` for the call argument and the `.env` default (empty
string = not set).  The network post itself consumes the returned document and
is outside the model. -/
def createSupply (validProducts : List Product) (items : List SupplyItem)
    (argCtr argStore cfgCtr cfgStore : Str)
    (stores suppliers : List Supplier)
    (dateIncoming comment : Option Str)
    (nowDate docNumber : Str) : Except SupplyError SupplyDoc :=
  match resolveId argStore cfgStore stores SupplyError.configStore with
  | .error e => .error e
  | .ok storeId =>
    match resolveId argCtr cfgCtr suppliers SupplyError.configCounteragent with
    | .error e => .error e
    | .ok ctrId =>
      let validIds := validProducts.map (fun p => p.id)
      if items.any (fun it => it.productId ≠ [] ∧ it.productId ∉ validIds) then
        .error .productGroup
      else
        let di : Option Str := match dateIncoming with
          | some d => if d ≠ [] then some d else none
          | none => none
        let cm : Option Str := match comment with
          | some c => if c ≠ [] then some (c.take 500) else none
          | none => none
        .ok
          { documentNumber := docNumber
            dateIncoming := di.getD nowDate
            useDefaultDocumentTime := di.isNone
            defaultStore := storeId
            supplier := ctrId
            comment := cm
            items := (items.enum).map (fun p => supplyLine storeId (p.1 + 1) p.2) }

end Iiko

namespace Pdf

/-- A table cell as delivered by `pdfplumber`: a string or `None`. -/
abbrev Cell := Option Str

/-- `str(c or "")`: a missing cell reads as the empty string. -/
def cellStr (c : Cell) : Str := c.getD []

/-- A table row, a table, the tables of one page, and a document. -/
abbrev Row := List Cell

abbrev Table := List Row

abbrev Page := List Table

/-- `pdf_parser.normalize_unit`. -/
def normalizeUnit (unit : Str) : Str :=
  if unit = [] then str "шт"
  else
    let u := lowerStr unit
    if containsStr (str "кг") u || containsStr (str "kilogram") u ||
        containsStr (str "килограмм") u then str "кг"
    else if containsStr (str "л") u || containsStr (str "литр") u ||
        containsStr (str "liter") u then str "л"
    else str "шт"

/-- `pdf_parser._parse_number`: remove plain spaces, turn the comma into a
decimal point, strip, then parse as a `Decimal`. -/
def parseNumber (s : Str) : Option ℚ :=
  if s = [] then none
  else parseDec (stripStr ((s.filter (fun c => c != ' ')).map (fun c => if c == ',' then '.' else c)))

/-- The column-index map of `_find_column_indices` /
`parse_invoice_pdf`, with its default assignments. -/
structure ColIdx where
  num : Nat
  name : Nat
  code : Nat
  unit : Nat
  quantity : Nat
  price : Nat
  costVat : Nat
deriving DecidableEq, Repr

/-- The default indices for a typical invoice layout. -/
def defaultIdx : ColIdx := ⟨0, 1, 2, 3, 4, 5, 9⟩

/-- The `elif` marker chain of `_find_column_indices`, applied to one header
cell (already lowered): later matches overwrite earlier assignments. -/
def applyMarker (acc : ColIdx) (i : Nat) (cell : Str) : ColIdx :=
  if stripStr cell = str "№" ∨ (cell.length ≤ 3 ∧ containsStr (str "№") cell) then
    { acc with num := i }
  else if containsStr (str "наименование") cell ∧
      (containsStr (str "товар") cell ∨ containsStr (str "услуг") cell) then
    { acc with name := i }
  else if containsStr (str "ед") cell ∨ containsStr (str "измер") cell then
    { acc with unit := i }
  else if containsStr (str "количество") cell ∨ containsStr (str "кол-во") cell then
    { acc with quantity := i }
  else if containsStr (str "цена") cell ∧ ¬ containsStr (str "ндс") cell then
    { acc with price := i }
  else if containsStr (str "ндс") cell ∧ containsStr (str "учетом") cell then
    { acc with costVat := i }
  else if containsStr (str "стоимость") cell ∧ containsStr (str "ндс") cell then
    { acc with costVat := i }
  else if containsStr (str "стоимость") cell ∧ containsStr (str "поставки") cell ∧
      containsStr (str "учётом") cell then
    { acc with costVat := i }
  else if containsStr (str "идентификацион") cell ∨
      (containsStr (str "код") cell ∧ ¬ containsStr (str "штрих") cell) then
    { acc with code := i }
  else acc

/-- `pdf_parser._find_column_indices`. -/
def findColumnIndices (row : Row) : ColIdx :=
  (row.map (fun c => lowerStr (cellStr c))).enum.foldl
    (fun acc p => applyMarker acc p.1 p.2) defaultIdx

/-- `pdf_parser._is_product_row`.  The source indexes `row[num_col]` inside a
`try` that catches only `ValueError`/`TypeError`, so an out-of-range
`num_col` raises `IndexError`; that uncaught exception is the outer `none`. -/
def isProductRow (row : Row) (numCol : Nat) : Option Bool :=
  if row.length < 5 then some false
  else
    match row.get? numCol with
    | none => none
    | some c =>
      let val := stripStr (cellStr c)
      if val = [] then some false
      else
        match parseInt val with
        | none => some false
        | some n => some (decide (0 < n))

/-- The skip words of `parse_invoice_pdf`. -/
def skipWordsRow : List Str :=
  [str "итого", str "всего", str "total", str "сумма", str "купля-продажа"]

/-- `re.sub(r"\s*\*[\d\w]+\s*$", "", name)`: strip a trailing article code —
trailing whitespace, a maximal run of word characters, a `*` before it and any
whitespace before that; if the tail does not have this shape the name is
unchanged. -/
def stripArticle (s : Str) : Str :=
  let r := s.reverse.dropWhile isSpace
  let w := r.takeWhile isWordChar
  let r2 := r.dropWhile isWordChar
  match w, r2 with
  | _ :: _, '*' :: r3 => (r3.dropWhile isSpace).reverse
  | _, _ => s

/-- The line-item record built per accepted row
(`{"name", "unit", "quantity", "price_with_vat", "code_from_pdf"}`).
Quantities and prices are exact rationals; the source converts them to
binary floats, which is exact for the short decimals that occur. -/
structure Item where
  name : Str
  unit : Str
  quantity : ℚ
  priceWithVat : ℚ
  codeFromPdf : Str
deriving DecidableEq, Repr

/-- `round(x, 2)` modelled as rounding the exact rational to two decimal
places (the source rounds the converted float). -/
def round2 (x : ℚ) : ℚ := (round (x * 100) : ℤ) / 100

/-- The body of the data-row branch of `parse_invoice_pdf` (source lines
169-206), given the active column map.  The outer `none` models the uncaught
`IndexError` of the unguarded `row[idx["name"]]` access; `some none` models a
skipped row; `some (some item)` an appended line item. -/
def buildItem (ci : ColIdx) (row : Row) : Option (Option Item) :=
  match row.get? ci.name with
  | none => none
  | some c =>
    let nm0 := (stripStr (cellStr c)).map (fun ch => if ch == '\n' then ' ' else ch)
    let nm := stripStr (stripArticle nm0)
    if nm = [] ∨ skipWordsRow.any (fun s => containsStr s (lowerStr nm)) then some none
    else
      let code := stripStr (cellStr (row.getD ci.code none))
      let unit := normalizeUnit (stripStr (cellStr (row.getD ci.unit none)))
      let qty := parseNumber (cellStr (row.getD ci.quantity none))
      let costVat := parseNumber (cellStr (row.getD ci.costVat none))
      let price := parseNumber (cellStr (row.getD ci.price none))
      match qty with
      | none => some none
      | some q =>
        if q ≤ 0 then some none
        else
          let fallback : ℚ := match price with
            | some pv => if pv ≠ 0 then pv else 0
            | none => 0
          let pwv : ℚ := match costVat with
            | some cv => if cv ≠ 0 ∧ 0 < cv then cv / q else fallback
            | none => fallback
          some (some ⟨nm, unit, q, round2 pwv, code.take 80⟩)

/-- Does a row qualify as a header (`parse_invoice_pdf` lines 143-147): at
least three non-empty cells, a name marker and a quantity marker. -/
def headerQual (row : Row) : Bool :=
  let nonEmpty := (row.filter (fun c =>
    match c with
    | some s => decide (s ≠ [] ∧ stripStr s ≠ [])
    | none => false)).length
  let rowStr := joinSpace (row.map (fun c => lowerStr (cellStr c)))
  decide (3 ≤ nonEmpty) && containsStr (str "наименование") rowStr &&
    (containsStr (str "количество") rowStr || containsStr (str "кол-во") rowStr)

/-- The body of the `for row in table` loop of `parse_invoice_pdf`: given the
current column map (`none` while no header has been seen on this page),
produce the new map and at most one line item.  The outer `none` is an
uncaught exception. -/
def processRow (ci? : Option ColIdx) (row : Row) : Option (Option ColIdx × Option Item) :=
  if row = [] then some (ci?, none)
  else if headerQual row then some (some (findColumnIndices row), none)
  else
    match ci? with
    | none => some (none, none)
    | some ci =>
      match isProductRow row ci.num with
      | none => none
      | some false => some (ci?, none)
      | some true => (buildItem ci row).map (fun it => (ci?, it))

/-- Fold `processRow` over the rows of one table, accumulating items. -/
def processTable (st : Option ColIdx × List Item) (t : Table) :
    Option (Option ColIdx × List Item) :=
  t.foldlM
    (fun acc row => (processRow acc.1 row).map (fun r => (r.1, acc.2 ++ r.2.toList)))
    st

/-- One page of `parse_invoice_pdf`: `col_indices` is reset to `None` at the
top of the page and persists across the page's tables. -/
def processPage (acc : List Item) (tables : Page) : Option (List Item) :=
  (tables.foldlM processTable ((none : Option ColIdx), acc)).map (fun r => r.2)

/-- The table-extraction part of `parse_invoice_pdf` over the already-extracted
tables of each page (the `pdfplumber` I/O and the supplier-name text search
are outside the model). -/
def parseTables (doc : List Page) : Option (List Item) :=
  doc.foldlM processPage []

end Pdf

namespace Mappings

/-- `product_mappings._normalize_key`: trim and collapse internal
whitespace. -/
def normalizeKey (nm : Str) : Str := joinSpace (splitP isSpace (stripStr nm))

/-- A value passed to `save_mappings`: an iiko product dict; absent keys read
as the empty string (`.get(..., "")`). -/
structure MapIn where
  id : Str
  name : Str
  productCode : Str
  number : Str
deriving DecidableEq, Repr

/-- A record as stored in `product_mappings.json`:
`{"id", "name", "productCode"}`. -/
structure MapRec where
  id : Str
  name : Str
  productCode : Str
deriving DecidableEq, Repr

/-- The record written for one mapping (source lines 75-79). -/
def storedOf (rec : MapIn) : MapRec :=
  ⟨rec.id, rec.name, if rec.productCode ≠ [] then rec.productCode else rec.number⟩

/-- The persisted JSON object, an insertion-ordered dict. -/
abbrev Store := List (Str × MapRec)

/-- `data[key] = value` on a Python dict: overwrite in place if the key
exists, otherwise append. -/
def dictSet (d : Store) (k : Str) (v : MapRec) : Store :=
  if d.any (fun p => p.1 == k) then d.map (fun p => if p.1 == k then (k, v) else p)
  else d ++ [(k, v)]

/-- `data.get(key)`. -/
def dictGet (d : Store) (k : Str) : Option MapRec :=
  (d.find? (fun p => p.1 == k)).map (fun p => p.2)

/-- `product_mappings.get_mapping`, with the loaded file contents made
explicit. -/
def getMapping (data : Store) (pdfName : Str) : Option MapRec :=
  let key := normalizeKey pdfName
  if key = [] then none else dictGet data key

/-- `product_mappings.save_mappings`, with the loaded and saved file contents
made explicit: merge each entry with a non-empty normalized key and a
non-empty id into the existing data. -/
def saveMappings (data : Store) (mappings : List (Str × MapIn)) : Store :=
  mappings.foldl
    (fun d p =>
      let key := normalizeKey p.1
      if key = [] ∨ p.2.id = [] then d
      else dictSet d key (storedOf p.2))
    data

end Mappings

namespace Iiko

theorem searchStep_none_of_no_words (fz : Fuzz) (q : Str) (p : Product)
    (h : tokenizeQuery q = []) : searchStep fz q p = none := by
  have hq : queryAnyWordInName q p.name = true := by
    unfold queryAnyWordInName
    simp [h]
  have hc : countKeywordMatches q p.name = 0 := by
    unfold countKeywordMatches
    simp [h]
  have hm : minMatchesOf q = 1 := by
    unfold minMatchesOf
    simp [h]
  unfold searchStep
  rcases scoreGate fz q (lowerStr p.name) (lowerStr (codeEff p)) with _ | sc
  · rfl
  · simp [hq, hc, hm]

/-- C10: if the query tokenizes to no significant word, the fuzzy stage
`_search_in_products` returns the empty list for every product list, limit and
minimum score — even a product whose code equals the query (which would force
score 100) is rejected, because the keyword-coverage minimum of one matching
word can never be met. -/
theorem C10_no_words_empty (fz : Fuzz) (products : List Product) (q : Str)
    (limit minScore : Nat) (h : tokenizeQuery q = []) :
    searchInProducts fz products q limit minScore = [] := by
  unfold searchInProducts
  have hfm : products.filterMap (searchStep fz q) = [] := by
    rw [List.filterMap_eq_nil_iff]
    intro p _
    exact searchStep_none_of_no_words fz q p h
  simp [hfm]

/-- A product whose code is literally the stop-word query "из". -/
def prodIz : Product := ⟨str "id-iz", str "Из", str "из", []⟩

/-- Witness for C10: the query "из" (a stop word, length 2) tokenizes to no
significant word, and the fuzzy stage rejects even a product whose lowered
code equals the query. -/
theorem C10_witness :
    tokenizeQuery (str "из") = [] ∧
      searchInProducts fzZero [prodIz] (str "из") 10 0 = [] :=
  ⟨by decide, C10_no_words_empty fzZero [prodIz] (str "из") 10 0 (by decide)⟩

end Iiko

namespace Iiko

/-- C7: searching with the known typo "авакадо" gives exactly the same result
list as searching with the corrected word "авокадо", for every catalog, every
metric instantiation, and every limit / minimum score: the typo table is
applied by `_normalize_query` before every matching stage, so both calls run
on the identical normalized query. -/
theorem C7_typo_query_equal (fz : Fuzz) (products : List Product)
    (limit minScore : Nat) :
    searchProduct fz products (str "авакадо свежий") limit minScore =
      searchProduct fz products (str "авокадо свежий") limit minScore := by
  unfold searchProduct
  have e1 : stripStr (str "авакадо свежий") = str "авакадо свежий" := by decide
  have e2 : stripStr (str "авокадо свежий") = str "авокадо свежий" := by decide
  rw [e1, e2]
  have n1 : normalizeQuery (str "авакадо свежий") = str "авокадо свежий" := by decide
  have n2 : normalizeQuery (str "авокадо свежий") = str "авокадо свежий" := by decide
  rw [if_neg (by decide : ¬(str "авакадо свежий" = [])),
    if_neg (by decide : ¬(str "авокадо свежий" = [])), n1, n2]

end Iiko

theorem char_toNat_ofNat (n : Nat) (h : n.isValidChar) : (Char.ofNat n).toNat = n := by
  rw [Char.ofNat, dif_pos h]
  rfl

theorem isSpace_lowerChar (c : Char) : isSpace (lowerChar c) = isSpace c := by
  unfold lowerChar
  split
  · rename_i h
    have hv : Nat.isValidChar (c.toNat + 32) := Or.inl (by omega)
    simp only [isSpace, char_toNat_ofNat _ hv]
    simp only [List.mem_cons, List.not_mem_nil, or_false, decide_eq_decide]
    omega
  · split
    · rename_i h1 h
      have hv : Nat.isValidChar (c.toNat + 32) := Or.inl (by omega)
      simp only [isSpace, char_toNat_ofNat _ hv]
      simp only [List.mem_cons, List.not_mem_nil, or_false, decide_eq_decide]
      omega
    · split
      · rename_i h1 h2 h
        simp only [isSpace, h]
        decide
      · rfl

theorem stripStr_lowerStr (s : Str) : stripStr (lowerStr s) = lowerStr (stripStr s) := by
  have hp : (isSpace ∘ lowerChar) = isSpace := funext fun c => isSpace_lowerChar c
  unfold stripStr lowerStr
  rw [List.dropWhile_map, hp, ← List.map_reverse, List.dropWhile_map, hp, ← List.map_reverse]

theorem lowerStr_length (s : Str) : (lowerStr s).length = s.length := List.length_map s lowerChar

namespace Iiko

theorem matchLoop_spec (fz : Fuzz) (q : Str) :
    ∀ (l : List Supplier) (b0 : Option Supplier) (s0 : Nat),
      (matchLoop fz q l (b0, s0) = (b0, s0) ∧
        ∀ t ∈ l, lowerStr t.name = [] ∨ supScore fz q (lowerStr t.name) ≤ s0) ∨
      (∃ l₁ s l₂, l = l₁ ++ s :: l₂ ∧ lowerStr s.name ≠ [] ∧
        matchLoop fz q l (b0, s0) = (some ⟨s.id, s.name⟩, supScore fz q (lowerStr s.name)) ∧
        s0 < supScore fz q (lowerStr s.name) ∧
        (∀ t ∈ l₁, lowerStr t.name = [] ∨
          supScore fz q (lowerStr t.name) < supScore fz q (lowerStr s.name)) ∧
        (∀ t ∈ l₂, lowerStr t.name = [] ∨
          supScore fz q (lowerStr t.name) ≤ supScore fz q (lowerStr s.name))) := by
  intro l
  induction l with
  | nil =>
    intro b0 s0
    left
    exact ⟨rfl, by simp⟩
  | cons hd tl ih =>
    intro b0 s0
    by_cases hn : lowerStr hd.name = []
    · have hstep : matchLoop fz q (hd :: tl) (b0, s0) = matchLoop fz q tl (b0, s0) := by
        simp only [matchLoop, hn, if_pos rfl]
        simp
      rcases ih b0 s0 with ⟨heq, hall⟩ | ⟨l₁, s, l₂, hsplit, hsne, heq, hlt, hfore, haft⟩
      · left
        refine ⟨hstep.trans heq, ?_⟩
        intro t ht
        rcases List.mem_cons.mp ht with rfl | ht
        · exact Or.inl hn
        · exact hall t ht
      · right
        refine ⟨hd :: l₁, s, l₂, by rw [hsplit, List.cons_append], hsne,
          hstep.trans heq, hlt, ?_, haft⟩
        intro t ht
        rcases List.mem_cons.mp ht with rfl | ht
        · exact Or.inl hn
        · exact hfore t ht
    · by_cases hlt : s0 < supScore fz q (lowerStr hd.name)
      · have hstep : matchLoop fz q (hd :: tl) (b0, s0) =
            matchLoop fz q tl (some ⟨hd.id, hd.name⟩, supScore fz q (lowerStr hd.name)) := by
          simp only [matchLoop, hn, if_neg hn]
          simp [hlt]
        rcases ih (some ⟨hd.id, hd.name⟩) (supScore fz q (lowerStr hd.name)) with
          ⟨heq, hall⟩ | ⟨l₁, s, l₂, hsplit, hsne, heq, hlt2, hfore, haft⟩
        · right
          exact ⟨[], hd, tl, rfl, hn, hstep.trans heq, hlt, by simp, hall⟩
        · right
          refine ⟨hd :: l₁, s, l₂, by rw [hsplit, List.cons_append], hsne,
            hstep.trans heq, lt_trans hlt hlt2, ?_, haft⟩
          intro t ht
          rcases List.mem_cons.mp ht with rfl | ht
          · exact Or.inr hlt2
          · exact hfore t ht
      · have hstep : matchLoop fz q (hd :: tl) (b0, s0) = matchLoop fz q tl (b0, s0) := by
          simp only [matchLoop, hn, if_neg hn]
          simp [hlt]
        rcases ih b0 s0 with ⟨heq, hall⟩ | ⟨l₁, s, l₂, hsplit, hsne, heq, hlt2, hfore, haft⟩
        · left
          refine ⟨hstep.trans heq, ?_⟩
          intro t ht
          rcases List.mem_cons.mp ht with rfl | ht
          · exact Or.inr (Nat.le_of_not_lt hlt)
          · exact hall t ht
        · right
          refine ⟨hd :: l₁, s, l₂, by rw [hsplit, List.cons_append], hsne,
            hstep.trans heq, hlt2, ?_, haft⟩
          intro t ht
          rcases List.mem_cons.mp ht with rfl | ht
          · exact Or.inr (Nat.lt_of_le_of_lt (Nat.le_of_not_lt hlt) hlt2)
          · exact hfore t ht

/-- C9: `match_supplier` returns `none` when the supplier list is empty, and
returns `none` when the trimmed candidate name is shorter than three
characters, whatever the supplier list; and whenever it returns a match, the
match is a supplier from the list whose composite similarity score strictly
exceeds the threshold 50, is maximal, and strictly exceeds the score of every
earlier supplier — so among equal-scoring suppliers the first-seen one is
returned. -/
theorem C9_match_supplier (fz : Fuzz) (pdfName : Str) (suppliers : List Supplier) :
    (suppliers = [] → matchSupplier fz pdfName suppliers = none) ∧
    ((stripStr pdfName).length < 3 → matchSupplier fz pdfName suppliers = none) ∧
    (∀ m, matchSupplier fz pdfName suppliers = some m →
      ∃ l₁ s l₂, suppliers = l₁ ++ s :: l₂ ∧ m = ⟨s.id, s.name⟩ ∧
        50 < supScore fz (stripStr (lowerStr pdfName)) (lowerStr s.name) ∧
        (∀ t ∈ l₁, lowerStr t.name = [] ∨
          supScore fz (stripStr (lowerStr pdfName)) (lowerStr t.name) <
            supScore fz (stripStr (lowerStr pdfName)) (lowerStr s.name)) ∧
        (∀ t ∈ l₂, lowerStr t.name = [] ∨
          supScore fz (stripStr (lowerStr pdfName)) (lowerStr t.name) ≤
            supScore fz (stripStr (lowerStr pdfName)) (lowerStr s.name))) := by
  have hlen : (stripStr (lowerStr pdfName)).length = (stripStr pdfName).length := by
    rw [stripStr_lowerStr, lowerStr_length]
  refine ⟨?_, ?_, ?_⟩
  · intro hs
    unfold matchSupplier
    rw [if_pos (Or.inr hs)]
  · intro hshort
    unfold matchSupplier
    by_cases hc : pdfName = [] ∨ suppliers = []
    · rw [if_pos hc]
    · rw [if_neg hc]
      simp only
      rw [if_pos (by rw [hlen]; exact hshort)]
  · intro m hm
    unfold matchSupplier at hm
    by_cases hc : pdfName = [] ∨ suppliers = []
    · rw [if_pos hc] at hm
      exact absurd hm (by simp)
    · rw [if_neg hc] at hm
      simp only at hm
      by_cases hq : (stripStr (lowerStr pdfName)).length < 3
      · rw [if_pos hq] at hm
        exact absurd hm (by simp)
      · rw [if_neg hq] at hm
        rcases matchLoop_spec fz (stripStr (lowerStr pdfName)) suppliers none 50 with
          ⟨heq, _⟩ | ⟨l₁, s, l₂, hsplit, hsne, heq, hlt, hfore, haft⟩
        · rw [heq] at hm
          exact absurd hm (by simp)
        · rw [heq] at hm
          simp only [Option.some.injEq] at hm
          exact ⟨l₁, s, l₂, hsplit, hm.symm, hlt, hfore, haft⟩

/-- Witness for C9: a two-character candidate name is rejected regardless of
the supplier list (here a non-empty one). -/
theorem C9_witness :
    matchSupplier fzZero (str "ab") [⟨str "s1", str "Ромашка"⟩] = none :=
  (C9_match_supplier fzZero (str "ab") [⟨str "s1", str "Ромашка"⟩]).2.1 (by decide)

end Iiko

namespace Iiko

/-- A one-product catalog whose only item carries code "00375". -/
def prodGranat : Product := ⟨str "id1", str "Гранат", str "00375", []⟩

/-- Counterexample for C1 as stated: with exactly one item of code "00375",
`search_product("00375", 10, 38)` does return exactly that item, but the
returned candidate dict has no score key at all (the code-exact stage bypasses
scoring), so it does not carry score 100. -/
theorem C1_counterexample :
    searchProduct fzZero [prodGranat] (str "00375") 10 38 =
      [⟨str "id1", str "Гранат", str "00375", none⟩] ∧
      (⟨str "id1", str "Гранат", str "00375", none⟩ : Cand).score ≠ some 100 :=
  ⟨by decide, by decide⟩

/-- C1 (amended): for every catalog in which exactly one item has
(whitespace-normalized) code "00375", `search_product` with query "00375",
limit 10 and minimum score 38 returns exactly that item — carrying its id,
name and code but no score field, since the code-exact stage returns before
any scoring happens. -/
theorem C1_code_exact (fz : Fuzz) (products : List Product) (p : Product)
    (h : products.filter (fun x => removeSp (codeEff x) = str "00375") = [p]) :
    searchProduct fz products (str "00375") 10 38 = [mkCandP p] := by
  unfold searchProduct
  rw [show stripStr (str "00375") = str "00375" from by decide,
    if_neg (by decide : ¬(str "00375" = [])),
    show normalizeQuery (str "00375") = str "00375" from by decide]
  have hfind : (splitP isSpace (str "00375")).find?
      (fun w => isDigits (removeSp w) && decide (3 ≤ w.length)) = some (str "00375") := by decide
  have hrm : removeSp (str "00375") = str "00375" := by decide
  simp only [searchCore, hfind, hrm, h]
  rw [if_pos (by simp : ¬([p] : List Product) = [])]
  rfl

/-- Witness for C1 (amended) at a concrete one-item catalog. -/
theorem C1_witness :
    ([prodGranat].filter (fun x => removeSp (codeEff x) = str "00375") = [prodGranat]) ∧
      searchProduct fzZero [prodGranat] (str "00375") 10 38 = [mkCandP prodGranat] :=
  ⟨by decide, C1_code_exact fzZero [prodGranat] prodGranat (by decide)⟩

end Iiko

namespace Iiko

theorem matchLE_iff (a b : MatchRec) :
    matchLE a b = true ↔
      (b.score < a.score ∨ (a.score = b.score ∧ a.name.length ≤ b.name.length)) := by
  unfold matchLE
  split
  · rename_i h
    simp [h]
  · split
    · rename_i h1 h2
      simp [h1, h2]
    · rename_i h1 h2
      simp [h1, h2]

theorem matchLE_trans (a b c : MatchRec) (hab : matchLE a b = true)
    (hbc : matchLE b c = true) : matchLE a c = true := by
  rw [matchLE_iff] at hab hbc ⊢
  omega

theorem matchLE_total (a b : MatchRec) : (matchLE a b || matchLE b a) = true := by
  rw [Bool.or_eq_true, matchLE_iff, matchLE_iff]
  omega

/-- Two products sharing the code "123"; the longer-named one comes first in
the catalog. -/
def prodLong : Product := ⟨str "a", str "Очень длинное название", str "123", []⟩

/-- The second product with code "123", with a one-character name. -/
def prodShort : Product := ⟨str "b", str "Б", str "123", []⟩

/-- Counterexample for C3 as stated: the code-exact stage of `search_product`
returns its hits in catalog order and attaches no scores, so with two items of
code "123" the returned list has two candidates of equal (absent) score whose
name lengths are descending — violating the claimed
descending-score / ascending-name-length order of every returned list. -/
theorem C3_counterexample :
    searchProduct fzZero [prodLong, prodShort] (str "123") 10 38 =
      [mkCandP prodLong, mkCandP prodShort] ∧
    (mkCandP prodLong).score = (mkCandP prodShort).score ∧
    ¬ ((mkCandP prodLong).name.length ≤ (mkCandP prodShort).name.length) :=
  ⟨by decide, by decide, by decide⟩

/-- C3 (amended): every candidate list produced by the fuzzy stage
`_search_in_products` is sorted by descending `_score`, ties broken by
ascending name length; and `search_product` is a pure function of its inputs,
so two calls with identical query, catalog, limit and minimum score return
identical, identically ordered lists.  (The claim fails only for the
code-exact stage of `search_product`, whose hits keep catalog order and carry
no scores.) -/
theorem C3_sorted_deterministic (fz : Fuzz) (products : List Product)
    (query q : Str) (limit minScore : Nat) :
    (searchInProducts fz products q limit minScore).Pairwise
      (fun a b => b.score < a.score ∨ (a.score = b.score ∧ a.name.length ≤ b.name.length)) ∧
    searchProduct fz products query limit minScore =
      searchProduct fz products query limit minScore := by
  constructor
  · unfold searchInProducts
    have hs := @List.sorted_mergeSort MatchRec matchLE matchLE_trans matchLE_total
      (products.filterMap (searchStep fz q))
    have h1 := hs.imp (fun hab => (matchLE_iff _ _).mp hab)
    exact h1.sublist ((List.filter_sublist _).trans (List.take_sublist _ _))
  · rfl

end Iiko

namespace Iiko

theorem closeOnce_mono (items : Catalog) :
    ∀ (ex : List Str) (a : Nat) (x : Str), x ∈ ex → x ∈ (closeOnce items ex a).1 := by
  induction items with
  | nil =>
    intro ex a x hx
    simpa [closeOnce] using hx
  | cons hd tl ih =>
    intro ex a x hx
    obtain ⟨iid, d⟩ := hd
    simp only [closeOnce]
    split_ifs with h1 h2
    · exact ih ex a x hx
    · exact ih (ex ++ [iid]) (a + 1) x (List.mem_append.mpr (Or.inl hx))
    · exact ih ex a x hx

theorem closeOnce_adds (items : Catalog) :
    ∀ (ex : List Str) (a : Nat) (v : Str) (d : CatItem),
      (v, d) ∈ items → d.parentId ≠ [] → d.parentId ∈ ex →
      v ∈ (closeOnce items ex a).1 := by
  induction items with
  | nil =>
    intro ex a v d hm
    exact absurd hm (List.not_mem_nil _)
  | cons hd tl ih =>
    intro ex a v d hm hp hpex
    obtain ⟨iid, dd⟩ := hd
    rcases List.mem_cons.mp hm with heq | htl
    · obtain ⟨rfl, rfl⟩ := Prod.mk.injEq .. ▸ heq
      simp only [closeOnce]
      split_ifs with h1 h2
      · exact closeOnce_mono tl ex a v h1
      · exact closeOnce_mono tl (ex ++ [v]) (a + 1) v
          (List.mem_append.mpr (Or.inr (List.mem_singleton.mpr rfl)))
      · exact absurd ⟨hp, hpex⟩ h2
    · simp only [closeOnce]
      split_ifs with h1 h2
      · exact ih ex a v d htl hp hpex
      · exact ih (ex ++ [iid]) (a + 1) v d htl hp (List.mem_append.mpr (Or.inl hpex))
      · exact ih ex a v d htl hp hpex

theorem closeOnce_count_le (items : Catalog) :
    ∀ (ex : List Str) (a : Nat), a ≤ (closeOnce items ex a).2 := by
  induction items with
  | nil =>
    intro ex a
    simp [closeOnce]
  | cons hd tl ih =>
    intro ex a
    obtain ⟨iid, d⟩ := hd
    simp only [closeOnce]
    split_ifs with h1 h2
    · exact ih ex a
    · exact le_trans (Nat.le_succ a) (ih (ex ++ [iid]) (a + 1))
    · exact ih ex a

theorem closeOnce_fixed (items : Catalog) :
    ∀ (ex : List Str) (a : Nat), (closeOnce items ex a).2 = a →
      (closeOnce items ex a).1 = ex ∧
      (∀ v d, (v, d) ∈ items → d.parentId ≠ [] → d.parentId ∈ ex → v ∈ ex) := by
  induction items with
  | nil =>
    intro ex a _
    refine ⟨by simp [closeOnce], ?_⟩
    intro v d hm
    exact absurd hm (List.not_mem_nil _)
  | cons hd tl ih =>
    intro ex a hcount
    obtain ⟨iid, d⟩ := hd
    simp only [closeOnce] at hcount ⊢
    split_ifs at hcount ⊢ with h1 h2
    · obtain ⟨he, hcl⟩ := ih ex a hcount
      refine ⟨he, ?_⟩
      intro v dd hm hp hpex
      rcases List.mem_cons.mp hm with heq | htl
      · cases heq
        exact h1
      · exact hcl v dd htl hp hpex
    · have := closeOnce_count_le tl (ex ++ [iid]) (a + 1)
      omega
    · obtain ⟨he, hcl⟩ := ih ex a hcount
      refine ⟨he, ?_⟩
      intro v dd hm hp hpex
      rcases List.mem_cons.mp hm with heq | htl
      · cases heq
        exact absurd ⟨hp, hpex⟩ h2
      · exact hcl v dd htl hp hpex

theorem reachL_shift (items : Catalog) (ex : List Str) (a : Nat) :
    ∀ (k : Nat) (v : Str), ReachL items ex (k + 1) v →
      ReachL items (closeOnce items ex a).1 k v := by
  intro k
  induction k with
  | zero =>
    intro v h
    cases h with
    | step hm hp hr =>
      cases hr with
      | base hb => exact ReachL.base (closeOnce_adds items ex a _ _ hm hp hb)
  | succ k ih =>
    intro v h
    cases h with
    | step hm hp hr => exact ReachL.step hm hp (ih _ hr)

theorem buildLoop_reach (items : Catalog) :
    ∀ (fuel : Nat) (ex : List Str) (k : Nat) (v : Str), k ≤ fuel →
      ReachL items ex k v → v ∈ buildLoop items fuel ex := by
  intro fuel
  induction fuel with
  | zero =>
    intro ex k v hk hr
    have hk0 : k = 0 := Nat.le_zero.mp hk
    subst hk0
    cases hr with
    | base hb => simpa [buildLoop] using hb
  | succ fuel ih =>
    intro ex k v hk hr
    simp only [buildLoop]
    by_cases h0 : (closeOnce items ex 0).2 = 0
    · rw [if_pos h0]
      obtain ⟨he, hfix⟩ := closeOnce_fixed items ex 0 h0
      rw [he]
      clear hk
      induction hr with
      | base hb => exact hb
      | step hm hp _ ih2 => exact hfix _ _ hm hp ih2
    · rw [if_neg h0]
      rcases k with _ | k
      · cases hr with
        | base hb =>
          exact ih (closeOnce items ex 0).1 0 v (Nat.zero_le _)
            (ReachL.base (closeOnce_mono items ex 0 v hb))
      · exact ih (closeOnce items ex 0).1 k v (Nat.le_of_succ_le_succ hk)
          (reachL_shift items ex 0 k v hr)

/-- C2 (amended): `_build_excluded_ids` is a pure function, so computing it
twice on the same snapshot trivially yields the same set; and the result is
descendant-closed for every item whose `parentId` chain reaches an excluded
group in at most 20 steps — the `for _ in range(20)` cap means deeper chains
(21 or more parent steps, with the catalog iterated child-before-parent) can
be missed. -/
theorem C2_idempotent_closed (items : Catalog) :
    buildExcludedIds items = buildExcludedIds items ∧
    (∀ (k : Nat) (v : Str), k ≤ 20 → ReachL items (seedIds items) k v →
      v ∈ buildExcludedIds items) :=
  ⟨rfl, fun k v hk hr => buildLoop_reach items 20 (seedIds items) k v hk hr⟩

/-- A two-entry catalog: an excluded group and one direct child. -/
def catSmall : Catalog :=
  [(str "g", ⟨str "Yandex", [], []⟩),
   (str "c", ⟨str "Товар", str "g", str "GOODS"⟩)]

/-- Witness for C2 (amended): the direct child of the excluded "Yandex" group
is in the computed exclusion set. -/
theorem C2_witness : str "c" ∈ buildExcludedIds catSmall :=
  (C2_idempotent_closed catSmall).2 1 (str "c") (by norm_num)
    (ReachL.step
      (d := ⟨str "Товар", str "g", str "GOODS"⟩)
      (by decide) (by decide)
      (ReachL.base (by decide)))

end Iiko

namespace Iiko

/-- Ids `n1`, `n2`, ... for the deep-chain catalog. -/
def cid (n : Nat) : Str := 'n' :: (toString n).toList

/-- The n-th chain member: `n1`'s parent is the excluded group `g0`, and
`n(k+1)`'s parent is `nk`. -/
def chainItem (n : Nat) : Str × CatItem :=
  (cid n, ⟨str "товар", if n = 1 then str "g0" else cid (n - 1), str "GOODS"⟩)

/-- A catalog whose 21-link chain under the excluded group is listed
child-before-parent: `n21, n20, ..., n1, g0`. -/
def catDeep : Catalog :=
  ((List.range 21).map (fun i => chainItem (21 - i))) ++
    [(str "g0", ⟨str "Yandex", [], []⟩)]

theorem chainItem_mem (m : Nat) (h1 : 1 ≤ m) (h2 : m ≤ 21) : chainItem m ∈ catDeep := by
  apply List.mem_append_left
  apply List.mem_map.mpr
  refine ⟨21 - m, ?_, ?_⟩
  · exact List.mem_range.mpr (by omega)
  · congr 1
    omega

theorem catDeep_reach (n : Nat) (h1 : 1 ≤ n) (h2 : n ≤ 21) :
    ReachL catDeep (seedIds catDeep) n (cid n) := by
  induction n with
  | zero => omega
  | succ m ih =>
    by_cases hm : m = 0
    · subst hm
      refine ReachL.step (d := ⟨str "товар", str "g0", str "GOODS"⟩) ?_ (by decide) ?_
      · have := chainItem_mem 1 (by omega) (by omega)
        simpa [chainItem] using this
      · exact ReachL.base (by decide)
    · refine ReachL.step (d := ⟨str "товар", cid m, str "GOODS"⟩) ?_ ?_ ?_
      · have := chainItem_mem (m + 1) (by omega) (by omega)
        have he : chainItem (m + 1) =
            (cid (m + 1), ⟨str "товар", cid m, str "GOODS"⟩) := by
          simp [chainItem, hm]
        rwa [he] at this
      · simp [cid]
      · exact ih (by omega) (by omega)

/-- Counterexample for C2 as stated: in `catDeep` the item `n21` reaches the
excluded group `g0` through a 21-step parent chain, yet — because the catalog
is ordered child-before-parent and the closure loop is capped at 20
iterations — `n21` is not in the computed exclusion set, so the set is not
descendant-closed. -/
theorem C2_counterexample :
    ReachL catDeep (seedIds catDeep) 21 (cid 21) ∧
      cid 21 ∉ buildExcludedIds catDeep :=
  ⟨catDeep_reach 21 (by omega) (by omega), by decide⟩

end Iiko

namespace Mappings

theorem find?_map_set (k : Str) (v : MapRec) :
    ∀ (l : Store), l.any (fun p => p.1 == k) = true →
      (l.map (fun p => if p.1 == k then (k, v) else p)).find? (fun p => p.1 == k) =
        some (k, v) := by
  intro l
  induction l with
  | nil =>
    intro hl
    simp at hl
  | cons hd tl ih =>
    intro hl
    simp only [List.map_cons]
    by_cases hh : (hd.1 == k) = true
    · rw [if_pos hh]
      rw [List.find?_cons_of_pos _ (by simp)]
    · rw [if_neg hh]
      rw [List.find?_cons_of_neg _ (by simpa using hh)]
      apply ih
      rcases List.any_eq_true.mp hl with ⟨x, hx, hpx⟩
      rcases List.mem_cons.mp hx with rfl | hx
      · exact absurd hpx hh
      · exact List.any_eq_true.mpr ⟨x, hx, hpx⟩

theorem dictGet_dictSet (d : Store) (k : Str) (v : MapRec) :
    dictGet (dictSet d k v) k = some v := by
  unfold dictGet dictSet
  by_cases h : d.any (fun p => p.1 == k) = true
  · rw [if_pos h, find?_map_set k v d h]
    rfl
  · rw [if_neg h]
    have hn : d.find? (fun p => p.1 == k) = none := by
      rw [List.find?_eq_none]
      intro x hx hpx
      exact h (List.any_eq_true.mpr ⟨x, hx, hpx⟩)
    rw [List.find?_append, hn, Option.none_or]
    rw [List.find?_cons_of_pos _ (by simp)]
    rfl

/-- A record with a non-empty id, as in the specification example. -/
def recX : MapIn := ⟨str "X", str "Молоко 3.2%", str "001", []⟩

/-- Counterexample for C6 as stated: saving `recX` (non-empty id) under the
all-whitespace key " " stores nothing (the normalized key is empty and the
entry is skipped), so a later `get` with the whitespace-equal key " " returns
`none` rather than the stored record. -/
theorem C6_counterexample :
    getMapping (saveMappings [] [(str " ", recX)]) (str " ") = none ∧ recX.id ≠ [] :=
  ⟨by decide, by decide⟩

/-- C6 (amended): for every record with a non-empty id and every save key
containing at least one non-whitespace character, saving and then getting with
any key that normalizes identically (equal up to leading/trailing/internal
whitespace) returns the stored record. -/
theorem C6_roundtrip (data : Store) (k1 k2 : Str) (rec : MapIn)
    (hid : rec.id ≠ []) (hkey : normalizeKey k1 = normalizeKey k2)
    (hne : normalizeKey k1 ≠ []) :
    getMapping (saveMappings data [(k1, rec)]) k2 = some (storedOf rec) := by
  unfold saveMappings
  simp only [List.foldl]
  rw [if_neg (by push_neg; exact ⟨hne, hid⟩)]
  unfold getMapping
  rw [← hkey, if_neg hne]
  exact dictGet_dictSet data (normalizeKey k1) (storedOf rec)

/-- Witness for C6 (amended) at the specification's own example. -/
theorem C6_witness :
    getMapping (saveMappings [] [(str "Молоко  3.2%", recX)]) (str "Молоко 3.2%") =
      some (storedOf recX) :=
  C6_roundtrip [] (str "Молоко  3.2%") (str "Молоко 3.2%") recX
    (by decide) (by decide) (by decide)

end Mappings

namespace Iiko

theorem resolveId_ok (arg cfg : Str) (pool : List Supplier) (e : SupplyError)
    (h : arg ≠ [] ∨ cfg ≠ [] ∨ pool ≠ []) :
    ∃ x, resolveId arg cfg pool e = .ok x := by
  unfold resolveId
  by_cases ha : arg ≠ []
  · rw [if_pos ha]
    exact ⟨arg, by rw [if_pos ha]⟩
  · rw [if_neg ha]
    by_cases hc : cfg ≠ []
    · rw [if_pos hc]
      exact ⟨cfg, rfl⟩
    · rw [if_neg hc]
      rcases pool with _ | ⟨s, rest⟩
      · rcases h with h | h | h
        · exact absurd h ha
        · exact absurd h hc
        · exact absurd rfl h
      · exact ⟨s.id, rfl⟩

/-- C8: whenever the item list of `create_supply` contains an entry whose
(non-empty) `productId` is absent from the filtered product catalog — which
is exactly what happens when the id denotes a `Group`-type category, since the
catalog parser drops all group items — the call fails with the distinct
`ProductGroupError` outcome, and no supply document is built or submitted
(the validation loop runs before the document is assembled).  The store and
counteragent resolution hypotheses say the client is otherwise configured. -/
theorem C8_group_rejected (validProducts : List Product) (items : List SupplyItem)
    (argCtr argStore cfgCtr cfgStore : Str) (stores suppliers : List Supplier)
    (dateIncoming comment : Option Str) (nowDate docNumber : Str)
    (hstore : argStore ≠ [] ∨ cfgStore ≠ [] ∨ stores ≠ [])
    (hctr : argCtr ≠ [] ∨ cfgCtr ≠ [] ∨ suppliers ≠ [])
    (hbad : ∃ it ∈ items, it.productId ≠ [] ∧
      it.productId ∉ validProducts.map (fun p => p.id)) :
    createSupply validProducts items argCtr argStore cfgCtr cfgStore stores suppliers
      dateIncoming comment nowDate docNumber = .error .productGroup := by
  obtain ⟨sid, hsid⟩ := resolveId_ok argStore cfgStore stores SupplyError.configStore hstore
  obtain ⟨ctr, hctr2⟩ := resolveId_ok argCtr cfgCtr suppliers SupplyError.configCounteragent hctr
  have hany : (items.any (fun it => it.productId ≠ [] ∧
      it.productId ∉ validProducts.map (fun p => p.id))) = true := by
    rcases hbad with ⟨it, hit, hprop⟩
    exact List.any_eq_true.mpr ⟨it, hit, by simpa using hprop⟩
  unfold createSupply
  rw [hsid]
  simp only
  rw [hctr2]
  simp only
  rw [if_pos (by simpa using hany)]

/-- A supply line whose product id is not in the catalog. -/
def badSupplyItem : SupplyItem := ⟨str "group-1", 2, none, none, none⟩

/-- Witness for C8 at a concrete configured call. -/
theorem C8_witness :
    createSupply [prodGranat] [badSupplyItem] (str "ctr") (str "store") [] [] [] []
      none none (str "2024-01-01T10:00") (str "BOT-1") = .error .productGroup :=
  C8_group_rejected [prodGranat] [badSupplyItem] (str "ctr") (str "store") [] [] [] []
    none none (str "2024-01-01T10:00") (str "BOT-1")
    (Or.inl (by decide)) (Or.inl (by decide))
    ⟨badSupplyItem, by decide, by decide, by decide⟩

end Iiko

namespace Pdf

theorem processRow_no_header (ci? : Option ColIdx) (row : Row)
    (h : headerQual row = false) (hci : ci? = none) :
    processRow ci? row = some (none, none) := by
  subst hci
  unfold processRow
  by_cases hr : row = []
  · rw [if_pos hr]
  · rw [if_neg hr, if_neg (by simp [h])]

theorem processTable_no_header (t : Table) :
    ∀ acc, (∀ row ∈ t, headerQual row = false) →
      processTable ((none : Option ColIdx), acc) t = some (none, acc) := by
  induction t with
  | nil =>
    intro acc _
    rfl
  | cons r rs ih =>
    intro acc h
    have h1 := processRow_no_header none r (h r (List.mem_cons_self r rs)) rfl
    unfold processTable at ih ⊢
    rw [List.foldlM_cons, h1]
    simpa using ih acc (fun row hrow => h row (List.mem_cons_of_mem r hrow))

theorem pageFold_no_header (tables : Page) :
    ∀ acc, (∀ t ∈ tables, ∀ row ∈ t, headerQual row = false) →
      tables.foldlM processTable ((none : Option ColIdx), acc) = some (none, acc) := by
  induction tables with
  | nil =>
    intro acc _
    rfl
  | cons t ts ih =>
    intro acc h
    rw [List.foldlM_cons, processTable_no_header t acc (h t (List.mem_cons_self t ts))]
    simpa using ih acc (fun t2 ht2 => h t2 (List.mem_cons_of_mem t ht2))

theorem processPage_no_header (tables : Page) (acc : List Item)
    (h : ∀ t ∈ tables, ∀ row ∈ t, headerQual row = false) :
    processPage acc tables = some acc := by
  unfold processPage
  rw [pageFold_no_header tables acc h]
  rfl

theorem docFold_no_header (doc : List Page) :
    ∀ acc, (∀ page ∈ doc, ∀ t ∈ page, ∀ row ∈ t, headerQual row = false) →
      doc.foldlM processPage acc = some acc := by
  induction doc with
  | nil =>
    intro acc _
    rfl
  | cons pg pgs ih =>
    intro acc h
    rw [List.foldlM_cons, processPage_no_header pg acc (h pg (List.mem_cons_self pg pgs))]
    simpa using ih acc (fun p hp => h p (List.mem_cons_of_mem pg hp))

/-- C4 (amended): a row is accepted as a data row only while a column map is
active, and the column map only becomes active when some earlier row of the
same page — in the same table or an earlier one — qualified as a header; in
particular, a document none of whose rows qualifies as a header yields zero
line items.  (Per-table isolation fails: the map persists across tables of a
page, see the counterexample.) -/
theorem C4_no_header_no_items (doc : List Page)
    (h : ∀ page ∈ doc, ∀ t ∈ page, ∀ row ∈ t, headerQual row = false) :
    parseTables doc = some [] :=
  docFold_no_header doc [] h

/-- A header row: five non-empty cells with name and quantity markers. -/
def hdrRow : Row :=
  [some (str "№"), some (str "Наименование товара"), some (str "код"),
   some (str "ед"), some (str "Количество")]

/-- A data row with row number 1 and quantity 2. -/
def dataRow : Row :=
  [some (str "1"), some (str "Молоко"), some (str ""), some (str "шт"), some (str "2")]

/-- The line item extracted from `dataRow` under the header's column map. -/
def itemMoloko : Item := ⟨str "Молоко", str "шт", 2, 0, []⟩

/-- Witness for C4 (amended): a document with one data-like row but no header
row anywhere yields zero line items. -/
theorem C4_witness : parseTables [[[dataRow]]] = some [] :=
  C4_no_header_no_items [[[dataRow]]] (by decide)

set_option maxRecDepth 4000 in
/-- Counterexample for C4 as stated: on a page with two tables, the first
containing only a header row and the second only a data row (no row of the
second table qualifies as a header), the second table still contributes a
line item, because the column map set by the first table stays active for the
whole page; the first table alone contributes nothing. -/
theorem C4_counterexample :
    parseTables [[[hdrRow], [dataRow]]] = some [itemMoloko] ∧
    (∀ row ∈ [dataRow], headerQual row = false) ∧
    parseTables [[[hdrRow]]] = some [] := by
  refine ⟨?_, by decide, ?_⟩
  · with_unfolding_all decide
  · with_unfolding_all decide

end Pdf

namespace Pdf

theorem buildItem_cases (ci : ColIdx) (row : Row) (r : Option Item)
    (hr : buildItem ci row = some r) :
    ∀ it, r = some it →
      ∃ q, parseNumber (cellStr (row.getD ci.quantity none)) = some q ∧
        ¬ q ≤ 0 ∧ it.quantity = q := by
  intro it hit
  subst hit
  unfold buildItem at hr
  rcases hget : row.get? ci.name with _ | c
  · rw [hget] at hr
    exact absurd hr (by simp)
  · rw [hget] at hr
    simp only at hr
    split_ifs at hr with h1
    · exact absurd hr (by simp)
    · rcases hqty : parseNumber (cellStr (row.getD ci.quantity none)) with _ | q
      · rw [hqty] at hr
        exact absurd hr (by simp)
      · rw [hqty] at hr
        simp only at hr
        split_ifs at hr with h2
        · exact absurd hr (by simp)
        · refine ⟨q, rfl, h2, ?_⟩
          simp only [Option.some.injEq] at hr
          rw [← hr]

/-- C5: under any active column map, a row whose quantity cell fails to parse
or parses to a value ≤ 0 never produces a line item; and whenever a row does
produce a line item and its quantity cell reads "2,5" (comma as the decimal
point), the item's quantity is exactly 5/2. -/
theorem C5_quantity_gate (ci : ColIdx) (row : Row) :
    ((∀ q, parseNumber (cellStr (row.getD ci.quantity none)) = some q → q ≤ 0) →
      ∀ st it?, processRow (some ci) row = some (st, it?) → it? = none) ∧
    (∀ st it, processRow (some ci) row = some (st, some it) →
      cellStr (row.getD ci.quantity none) = str "2,5" → it.quantity = 5 / 2) := by
  have hmain : ∀ st it, processRow (some ci) row = some (st, some it) →
      ∃ q, parseNumber (cellStr (row.getD ci.quantity none)) = some q ∧
        ¬ q ≤ 0 ∧ it.quantity = q := by
    intro st it heq
    unfold processRow at heq
    split_ifs at heq with h1 h2
    · exact absurd heq (by simp)
    · exact absurd heq (by simp)
    · simp only at heq
      rcases hpr : isProductRow row ci.num with _ | b
      · rw [hpr] at heq
        exact absurd heq (by simp)
      · rw [hpr] at heq
        rcases b
        · exact absurd heq (by simp)
        · simp only [Option.map_eq_some'] at heq
          rcases heq with ⟨r, hr, hpair⟩
          simp only [Prod.mk.injEq] at hpair
          exact buildItem_cases ci row r hr it hpair.2
  constructor
  · intro hq st it? heq
    rcases it? with _ | it
    · rfl
    · rcases hmain st it heq with ⟨q, hparse, hpos, _⟩
      exact absurd (hq q hparse) hpos
  · intro st it heq hcell
    rcases hmain st it heq with ⟨q, hparse, _, hquant⟩
    rw [hcell] at hparse
    have h25 : parseNumber (str "2,5") = some ((5 : ℚ) / 2) := by
      with_unfolding_all decide
    rw [h25] at hparse
    simp only [Option.some.injEq] at hparse
    rw [hquant, ← hparse]

/-- A data row whose quantity cell is "0". -/
def rowZero : Row :=
  [some (str "1"), some (str "Товар"), some (str ""), some (str "шт"), some (str "0")]

/-- A data row whose quantity cell is "2,5". -/
def rowQty25 : Row :=
  [some (str "1"), some (str "Товар"), some (str ""), some (str "шт"), some (str "2,5")]

/-- The item extracted from `rowQty25`. -/
def itemQ25 : Item := ⟨str "Товар", str "шт", 5 / 2, 0, []⟩

set_option maxRecDepth 4000 in
/-- Witness for C5: the quantity-0 row is skipped (evaluated directly), and
the "2,5" row's extracted item has quantity 5/2 via the theorem. -/
theorem C5_witness :
    processRow (some defaultIdx) rowZero = some (some defaultIdx, none) ∧
      itemQ25.quantity = 5 / 2 :=
  ⟨by with_unfolding_all decide,
    (C5_quantity_gate defaultIdx rowQty25).2 (some defaultIdx) itemQ25
      (by with_unfolding_all decide) (by decide)⟩

end Pdf
